import Mathlib

/-!
Verification development for a small HTTP/1.1 server
(`app/main.py`): wire codec (request parsing / response encoding),
path-pattern routing with parameter capture, and the per-connection
dispatcher.  Python strings are modelled as `List Char`; Python's
fallible operations (tuple unpacking, `str.split` arity mismatches)
are modelled with `Option`.
-/

namespace HttpSrv

/-- Characters of a Python `str` value; the whole embedding works on
character lists extracted from Lean string literals. -/
abbrev S := List Char

/-- Characters of a string literal. -/
def st (s : String) : S := s.data

/-- Source constant `CRLF_DELIMITER = "\r\n"`. -/
def CRLF : S := ['\r', '\n']

/-- The header/body separator `CRLF_DELIMITER * 2` used by `RequestParser.parse`. -/
def CRLF2 : S := ['\r', '\n', '\r', '\n']

/-- Whether `sep` occurs as a contiguous substring of the second argument.
Used only to state side conditions of lemmas. -/
def containsSub (sep : S) : S → Bool
  | [] => sep.isPrefixOf []
  | c :: cs => sep.isPrefixOf (c :: cs) || containsSub sep cs

/-- Fuel-indexed core of Python `str.split(sep)`: split on every
non-overlapping occurrence of `sep`, scanning left to right.  The fuel
only has to dominate the length of the input; `pySplit` instantiates it
with exactly the length, and `pySplitFuel_stable` shows any larger fuel
gives the same answer. -/
def pySplitFuel (sep : S) : Nat → S → List S
  | _, [] => [[]]
  | 0, l => [l]
  | fu+1, c :: cs =>
    if sep.isPrefixOf (c :: cs) then
      [] :: pySplitFuel sep fu ((c :: cs).drop sep.length)
    else
      match pySplitFuel sep fu cs with
      | [] => [[c]]
      | p :: ps => (c :: p) :: ps

/-- Python `str.split(sep)` for a nonempty separator. -/
def pySplit (sep l : S) : List S := pySplitFuel sep l.length l

/-- Fuel-indexed core of Python `str.split(sep, maxsplit)`: at most
`m` splits are performed, the unsplit remainder becomes the final
element. -/
def pySplitMaxFuel (sep : S) : Nat → Nat → S → List S
  | _, _, [] => [[]]
  | 0, _, l => [l]
  | _+1, 0, l => [l]
  | fu+1, m+1, c :: cs =>
    if sep.isPrefixOf (c :: cs) then
      [] :: pySplitMaxFuel sep fu m ((c :: cs).drop sep.length)
    else
      match pySplitMaxFuel sep fu (m+1) cs with
      | [] => [[c]]
      | p :: ps => (c :: p) :: ps

/-- Python `str.split(sep, maxsplit := m)` for a nonempty separator. -/
def pySplitMax (sep : S) (m : Nat) (l : S) : List S := pySplitMaxFuel sep l.length m l

/-- Fuel-indexed count of the non-overlapping occurrences of `sep`,
scanning left to right exactly as `pySplitFuel` does. -/
def countOccFuel (sep : S) : Nat → S → Nat
  | _, [] => 0
  | 0, _ => 0
  | fu+1, c :: cs =>
    if sep.isPrefixOf (c :: cs) then countOccFuel sep fu ((c :: cs).drop sep.length) + 1
    else countOccFuel sep fu cs

/-- Number of non-overlapping occurrences of `sep` (left-to-right scan). -/
def countOcc (sep l : S) : Nat := countOccFuel sep l.length l

theorem pySplitFuel_ne_nil (sep : S) : ∀ fu l, pySplitFuel sep fu l ≠ [] := by
  intro fu
  induction fu with
  | zero => intro l; cases l <;> simp [pySplitFuel]
  | succ fu ih =>
    intro l
    cases l with
    | nil => simp [pySplitFuel]
    | cons c cs =>
      simp only [pySplitFuel]
      split
      · simp
      · split <;> simp_all

theorem pySplit_ne_nil (sep l : S) : pySplit sep l ≠ [] := pySplitFuel_ne_nil sep l.length l

theorem pySplitFuel_stable (sep : S) (hsep : sep ≠ []) :
    ∀ fu l, l.length ≤ fu → pySplitFuel sep fu l = pySplitFuel sep l.length l := by
  have hlen : 1 ≤ sep.length := by
    cases sep with
    | nil => exact absurd rfl hsep
    | cons s ss => simp
  intro fu
  induction fu using Nat.strong_induction_on with
  | _ fu ih =>
    intro l hl
    cases l with
    | nil => cases fu <;> rfl
    | cons c cs =>
      cases fu with
      | zero => simp at hl
      | succ fu =>
        have hcs : cs.length ≤ fu := by simpa using hl
        simp only [List.length_cons, pySplitFuel]
        by_cases hp : sep.isPrefixOf (c :: cs) = true
        · rw [if_pos hp, if_pos hp]
          have hd : ((c :: cs).drop sep.length).length ≤ cs.length := by
            simp [List.length_drop]
            omega
          rw [ih fu (Nat.lt_succ_self fu) _ (le_trans hd hcs),
              ih cs.length (by omega) _ hd]
        · rw [if_neg hp, if_neg hp,
              ih fu (Nat.lt_succ_self fu) cs hcs,
              ih cs.length (by omega) cs le_rfl]

theorem pySplit_cons_pos (sep : S) (c : Char) (cs : S) (hsep : sep ≠ [])
    (hp : sep.isPrefixOf (c :: cs) = true) :
    pySplit sep (c :: cs) = [] :: pySplit sep ((c :: cs).drop sep.length) := by
  have hlen : 1 ≤ sep.length := by
    cases sep with
    | nil => exact absurd rfl hsep
    | cons s ss => simp
  have hd : ((c :: cs).drop sep.length).length ≤ cs.length := by
    simp [List.length_drop]
    omega
  show pySplitFuel sep (c :: cs).length (c :: cs) = _
  simp only [List.length_cons, pySplitFuel]
  rw [if_pos hp, pySplitFuel_stable sep hsep cs.length _ hd]
  rfl

theorem pySplit_cons_neg (sep : S) (c : Char) (cs : S)
    (hp : sep.isPrefixOf (c :: cs) = false) :
    pySplit sep (c :: cs) =
      match pySplit sep cs with
      | [] => [[c]]
      | p :: ps => (c :: p) :: ps := by
  show pySplitFuel sep (c :: cs).length (c :: cs) = _
  simp only [List.length_cons, pySplitFuel]
  rw [if_neg (by simp [hp])]
  rfl

/-- A separator-free string does not get split. -/
theorem pySplit_of_not_contains (sep : S) :
    ∀ l, containsSub sep l = false → pySplit sep l = [l] := by
  intro l
  induction l with
  | nil => intro _; rfl
  | cons c cs ih =>
    intro h
    simp only [containsSub, Bool.or_eq_false_iff] at h
    rw [pySplit_cons_neg sep c cs h.1, ih h.2]

/-- Splitting `line ++ CRLF2 ++ b` on the double CRLF cuts exactly at the
inserted separator when `line` is free of CRLF and `b` free of double CRLF. -/
theorem pySplit_crlf2_boundary :
    ∀ line b : S, containsSub CRLF line = false → containsSub CRLF2 b = false →
    pySplit CRLF2 (line ++ CRLF2 ++ b) = [line, b] := by
  intro line
  induction line with
  | nil =>
    intro b hl hb
    have hpre : CRLF2.isPrefixOf (('\r' : Char) :: '\n' :: '\r' :: '\n' :: b) = true := by
      simp [CRLF2, List.isPrefixOf]
    have h1 := pySplit_cons_pos CRLF2 '\r' ('\n' :: '\r' :: '\n' :: b) (by simp [CRLF2]) hpre
    have h2 : (('\r' : Char) :: '\n' :: '\r' :: '\n' :: b).drop CRLF2.length = b := by
      simp [CRLF2]
    rw [h2, pySplit_of_not_contains CRLF2 b hb] at h1
    simpa [CRLF2] using h1
  | cons c cs ih =>
    intro b hl hb
    simp only [containsSub, Bool.or_eq_false_iff] at hl
    have hpre : CRLF2.isPrefixOf (c :: (cs ++ CRLF2 ++ b)) = false := by
      cases cs with
      | nil => simp [CRLF2, List.isPrefixOf]
      | cons d cs' =>
        have h1 : CRLF.isPrefixOf (c :: d :: cs') = false := hl.1
        simp only [CRLF, List.isPrefixOf, Bool.and_eq_false_iff] at h1
        simp only [CRLF2, List.cons_append, List.isPrefixOf, Bool.and_eq_false_iff]
        rcases h1 with h | h
        · exact Or.inl h
        · rcases h with h | h
          · exact Or.inr (Or.inl h)
          · simp [List.isPrefixOf] at h
    have hrec := ih b hl.2 hb
    rw [show (c :: cs) ++ CRLF2 ++ b = c :: (cs ++ CRLF2 ++ b) by simp,
        pySplit_cons_neg CRLF2 c _ hpre, hrec]

/-- Splitting on a single-character separator peels off a separator-free
chunk. -/
theorem pySplit_single_sep (c : Char) :
    ∀ a rest : S, containsSub [c] a = false →
    pySplit [c] (a ++ c :: rest) = a :: pySplit [c] rest := by
  intro a
  induction a with
  | nil =>
    intro rest _
    rw [List.nil_append,
        pySplit_cons_pos [c] c rest (by simp) (by simp [List.isPrefixOf])]
    simp
  | cons d a' ih =>
    intro rest h
    simp only [containsSub, Bool.or_eq_false_iff] at h
    have hpre : [c].isPrefixOf (d :: (a' ++ c :: rest)) = false := by
      have := h.1
      simp only [List.isPrefixOf, Bool.and_eq_false_iff] at this ⊢
      rcases this with h' | h'
      · exact Or.inl h'
      · simp at h'
    rw [List.cons_append, pySplit_cons_neg [c] d _ hpre, ih rest h.2]

/-- The number of pieces produced by an unbounded split is the number of
separator occurrences plus one. -/
theorem length_pySplitFuel (sep : S) (hsep : sep ≠ []) :
    ∀ fu l, l.length ≤ fu →
    (pySplitFuel sep fu l).length = countOccFuel sep fu l + 1 := by
  have hlen : 1 ≤ sep.length := by
    cases sep with
    | nil => exact absurd rfl hsep
    | cons x xs => simp
  intro fu
  induction fu with
  | zero =>
    intro l hl
    have : l = [] := by cases l <;> simp_all
    subst this
    rfl
  | succ fu ih =>
    intro l hl
    cases l with
    | nil => rfl
    | cons c cs =>
      have hcs : cs.length ≤ fu := by simpa using hl
      simp only [pySplitFuel, countOccFuel]
      by_cases hp : sep.isPrefixOf (c :: cs) = true
      · rw [if_pos hp, if_pos hp]
        have hd : ((c :: cs).drop sep.length).length ≤ fu := by
          simp [List.length_drop]
          omega
        simp [ih _ hd]
      · rw [if_neg hp, if_neg hp]
        rcases hne : pySplitFuel sep fu cs with _ | ⟨p, ps⟩
        · exact absurd hne (pySplitFuel_ne_nil sep fu cs)
        · have := ih cs hcs
          rw [hne] at this
          simpa using this

theorem length_pySplit (sep l : S) (hsep : sep ≠ []) :
    (pySplit sep l).length = countOcc sep l + 1 :=
  length_pySplitFuel sep hsep l.length l le_rfl

/-- The number of pieces produced by a bounded split is capped by the
`maxsplit` argument. -/
theorem length_pySplitMaxFuel (sep : S) (hsep : sep ≠ []) :
    ∀ fu m l, l.length ≤ fu →
    (pySplitMaxFuel sep fu m l).length = min (countOccFuel sep fu l) m + 1 := by
  have hlen : 1 ≤ sep.length := by
    cases sep with
    | nil => exact absurd rfl hsep
    | cons x xs => simp
  intro fu
  induction fu with
  | zero =>
    intro m l hl
    have : l = [] := by cases l <;> simp_all
    subst this
    cases m <;> rfl
  | succ fu ih =>
    intro m l hl
    cases l with
    | nil => cases m <;> rfl
    | cons c cs =>
      have hcs : cs.length ≤ fu := by simpa using hl
      cases m with
      | zero => simp [pySplitMaxFuel]
      | succ m =>
        simp only [pySplitMaxFuel, countOccFuel]
        by_cases hp : sep.isPrefixOf (c :: cs) = true
        · rw [if_pos hp, if_pos hp]
          have hd : ((c :: cs).drop sep.length).length ≤ fu := by
            simp [List.length_drop]
            omega
          have := ih m _ hd
          simp [this]
          omega
        · rw [if_neg hp, if_neg hp]
          rcases hne : pySplitMaxFuel sep fu (m+1) cs with _ | ⟨p, ps⟩
          · have : pySplitMaxFuel sep fu (m+1) cs ≠ [] := by
              cases fu with
              | zero =>
                have : cs = [] := by cases cs <;> simp_all
                subst this
                simp [pySplitMaxFuel]
              | succ fu' =>
                cases cs with
                | nil => simp [pySplitMaxFuel]
                | cons d ds =>
                  simp only [pySplitMaxFuel]
                  split
                  · simp
                  · split <;> simp_all
            exact absurd hne this
          · have := ih (m+1) cs hcs
            rw [hne] at this
            simpa using this

theorem length_pySplitMax (sep : S) (hsep : sep ≠ []) (m : Nat) (l : S) :
    (pySplitMax sep m l).length = min (countOcc sep l) m + 1 :=
  length_pySplitMaxFuel sep hsep l.length m l le_rfl

/-- Python `dict` assignment `d[k] = v` on an insertion-ordered
association list: an existing key keeps its position and gets the new
value, a fresh key is appended at the end. -/
def dictInsert {α : Type} (k : S) (v : α) : List (S × α) → List (S × α)
  | [] => [(k, v)]
  | (k2, v2) :: rest => if k = k2 then (k, v) :: rest else (k2, v2) :: dictInsert k v rest

/-- Python `dict.get(k)` (also the `k in d` membership test via `isSome`). -/
def dictGet {α : Type} (k : S) : List (S × α) → Option α
  | [] => none
  | (k2, v2) :: rest => if k = k2 then some v2 else dictGet k rest

theorem dictGet_insert_self {α : Type} (k : S) (v : α) :
    ∀ d, dictGet k (dictInsert k v d) = some v := by
  intro d
  induction d with
  | nil => simp [dictInsert, dictGet]
  | cons kv rest ih =>
    obtain ⟨k2, v2⟩ := kv
    by_cases h : k = k2 <;> simp [dictInsert, dictGet, h, ih]

theorem dictGet_insert_ne {α : Type} (k k2 : S) (v : α) (hne : k ≠ k2) :
    ∀ d, dictGet k (dictInsert k2 v d) = dictGet k d := by
  intro d
  induction d with
  | nil => simp [dictInsert, dictGet, hne]
  | cons kv rest ih =>
    obtain ⟨k3, v3⟩ := kv
    by_cases h2 : k2 = k3
    · subst h2
      simp [dictInsert, dictGet, hne]
    · by_cases h3 : k = k3 <;> simp [dictInsert, dictGet, h2, h3, ih]

theorem mem_dictInsert {α : Type} (k : S) (v : α) :
    ∀ d kv, kv ∈ dictInsert k v d → kv = (k, v) ∨ kv ∈ d := by
  intro d
  induction d with
  | nil => intro kv h; simp [dictInsert] at h; exact Or.inl h
  | cons kv2 rest ih =>
    obtain ⟨k2, v2⟩ := kv2
    intro kv h
    by_cases he : k = k2
    · simp only [dictInsert, if_pos he] at h
      rcases List.mem_cons.1 h with h1 | h1
      · exact Or.inl h1
      · exact Or.inr (List.mem_cons_of_mem _ h1)
    · simp only [dictInsert, if_neg he] at h
      rcases List.mem_cons.1 h with h1 | h1
      · exact Or.inr (by simp [h1])
      · rcases ih kv h1 with h2 | h2
        · exact Or.inl h2
        · exact Or.inr (List.mem_cons_of_mem _ h2)

theorem keys_nodup_dictInsert {α : Type} (k : S) (v : α) :
    ∀ d : List (S × α), (d.map Prod.fst).Nodup → ((dictInsert k v d).map Prod.fst).Nodup := by
  intro d
  induction d with
  | nil => intro _; simp [dictInsert]
  | cons kv rest ih =>
    obtain ⟨k2, v2⟩ := kv
    intro hnd
    simp only [List.map_cons, List.nodup_cons] at hnd
    by_cases he : k = k2
    · subst he
      have hins : dictInsert k v ((k, v2) :: rest) = (k, v) :: rest := by
        simp [dictInsert]
      rw [hins, List.map_cons, List.nodup_cons]
      exact hnd
    · simp only [dictInsert, if_neg he, List.map_cons, List.nodup_cons]
      refine ⟨?_, ih hnd.2⟩
      intro hmem
      rcases List.mem_map.1 hmem with ⟨⟨k3, v3⟩, hm, hk⟩
      rcases mem_dictInsert k v rest ⟨k3, v3⟩ hm with h2 | h2
      · simp only [Prod.mk.injEq] at h2
        exact he (h2.1.symm.trans hk)
      · exact hnd.1 (List.mem_map.2 ⟨⟨k3, v3⟩, h2, hk⟩)

/-- Python `str.lower` on one character, for the ASCII range actually used
by the header names of this server. -/
def lowerChar (c : Char) : Char :=
  if 65 ≤ c.toNat ∧ c.toNat ≤ 90 then Char.ofNat (c.toNat + 32) else c

/-- Python `str.lower` (ASCII range). -/
def lowerS (l : S) : S := l.map lowerChar

theorem lowerChar_idem (c : Char) : lowerChar (lowerChar c) = lowerChar c := by
  have hval : ∀ t < 91, 65 ≤ t → (Char.ofNat (t + 32)).toNat = t + 32 := by decide
  by_cases h : 65 ≤ c.toNat ∧ c.toNat ≤ 90
  · have h1 : lowerChar c = Char.ofNat (c.toNat + 32) := by simp [lowerChar, h]
    have h2 : (Char.ofNat (c.toNat + 32)).toNat = c.toNat + 32 :=
      hval c.toNat (by omega) (by omega)
    rw [h1, lowerChar, if_neg]
    rw [h2]
    omega
  · have h1 : lowerChar c = c := by simp [lowerChar, h]
    rw [h1, h1]

theorem lowerS_idem (l : S) : lowerS (lowerS l) = lowerS l := by
  simp [lowerS, Function.comp_def, lowerChar_idem]

/-- Decimal rendering of a Python `int` (here only naturals occur:
status codes and `len()` values). -/
def natToStr (n : Nat) : S := (Nat.repr n).data

/-- `", ".join(values)` / `CRLF.join(lines)`. -/
def joinSep (sep : S) (xs : List S) : S := List.intercalate sep xs

/-- The `RequestContent` value class of the source: a parsed request.
`server_directory` is the out-of-band base-directory context threaded in
by the dispatcher (Python default `None`). -/
structure RequestContent where
  method : S
  path : S
  http_version : S
  headers : List (S × List S)
  body : S
  server_directory : Option S := none
deriving DecidableEq, Repr

/-- `RequestContent.headers_pair`: the value sequence stored under the
lower-cased key, `()` when absent (`self.headers.get(key.lower()) or ()`). -/
def RequestContent.headers_pair (r : RequestContent) (key : S) : List S :=
  (dictGet (lowerS key) r.headers).getD []

/-- `RequestContent.header`: the comma-joined value string of a header. -/
def RequestContent.header (r : RequestContent) (key : S) : S :=
  joinSep (st ", ") (r.headers_pair key)

/-- `RequestContent.to_encoded_request`: request line, CRLF-joined header
lines, then a SINGLE CRLF before the body. -/
def RequestContent.to_encoded_request (r : RequestContent) : S :=
  let headers_line := r.method ++ ' ' :: r.path ++ ' ' :: r.http_version
  let general_headers :=
    joinSep CRLF (r.headers.map (fun kv => kv.1 ++ ':' :: ' ' :: joinSep (st ", ") kv.2))
  headers_line ++ CRLF ++ general_headers ++ CRLF ++ r.body

/-- The header-dict building loop of `RequestParser.parse`: each line is
split on `": "` with `maxsplit=2` and must yield exactly a key and a
value (anything else raises, modelled by `none`); the key is lower-cased
and the value split on `", "`. -/
def parseHeaders : List S → List (S × List S) → Option (List (S × List S))
  | [], acc => some acc
  | line :: rest, acc =>
    match pySplitMax (st ": ") 2 line with
    | [key, value] => parseHeaders rest (dictInsert (lowerS key) (pySplit (st ", ") value) acc)
    | _ => none

/-- `RequestParser.parse`: split the raw text on the double CRLF into
exactly a header block and a body (Python tuple unpacking raises unless
the split has exactly two pieces), split the header block on CRLF, take
the first line as `method url http_version` (again exactly three
space-separated pieces), and fold the remaining lines into the header
dict. -/
def RequestParser.parse (input : S) : Option RequestContent :=
  match pySplit CRLF2 input with
  | [headers_block, body] =>
    match pySplit CRLF headers_block with
    | [] => none
    | request_line :: header_lines =>
      match pySplit [' '] request_line with
      | [method, url, http_version] =>
        match parseHeaders header_lines [] with
        | some hd => some ⟨method, url, http_version, hd, body, none⟩
        | none => none
      | _ => none
  | _ => none

/-- The `ResponseContent` builder of the source. -/
structure ResponseContent where
  headers : List (S × List S) := []
  body : S := []
  status_code : Nat := 200
  reason_phrase : S := st "OK"
deriving DecidableEq, Repr

/-- `ResponseContent()` with its `__init__` defaults. -/
def ResponseContent.new : ResponseContent := {}

def ResponseContent.set_header_pair (r : ResponseContent) (key : S) (values : List S) :
    ResponseContent :=
  { r with headers := dictInsert key values r.headers }

def ResponseContent.set_header (r : ResponseContent) (key value : S) : ResponseContent :=
  r.set_header_pair key [value]

def ResponseContent.set_content_type (r : ResponseContent) (content_type : S) : ResponseContent :=
  r.set_header (st "Content-Type") content_type

def ResponseContent.set_status_code (r : ResponseContent) (status_code : Nat)
    (reason_phrase : S) : ResponseContent :=
  { r with status_code := status_code, reason_phrase := reason_phrase }

def ResponseContent.set_body (r : ResponseContent) (body : S) : ResponseContent :=
  { r with body := body }

/-- `ResponseContent.not_found`: the canned 404. -/
def ResponseContent.not_found : ResponseContent :=
  (ResponseContent.new.set_status_code 404 (st "Not Found")).set_body (st "Not Found")

/-- `ResponseContent.method_not_allowed`: the canned 405. -/
def ResponseContent.method_not_allowed : ResponseContent :=
  (ResponseContent.new.set_status_code 405 (st "Method Not Allowed")).set_body
    (st "Method Not Allowed")

/-- The header mutation `to_encoded_response` performs before
serializing: default the `Content-Type` (exact-case lookup) and then
unconditionally overwrite `Content-Length` with the body length. -/
def ResponseContent.finalized (r : ResponseContent) : ResponseContent :=
  let r1 := if dictGet (st "Content-Type") r.headers = none
            then r.set_content_type (st "text/plain") else r
  r1.set_header (st "Content-Length") (natToStr r1.body.length)

/-- `ResponseContent.to_encoded_response`: status line, CRLF-joined
header lines, a double CRLF, then the body. -/
def ResponseContent.to_encoded_response (r : ResponseContent) : S :=
  let r2 := r.finalized
  let status_line := st "HTTP/1.1" ++ ' ' :: natToStr r2.status_code ++ ' ' :: r2.reason_phrase
  let general_headers :=
    joinSep CRLF (r2.headers.map (fun kv => kv.1 ++ ':' :: ' ' :: joinSep (st ", ") kv.2))
  status_line ++ CRLF ++ general_headers ++ CRLF ++ CRLF ++ r2.body

/-- One token of a compiled route pattern: a literal character, or the
capture group `([^/]+)` that `Route._build_pattern` substitutes for a
`\x7bname\x7d` placeholder. -/
inductive PatToken where
  | lit (c : Char)
  | param
deriving DecidableEq, Repr

/-- Python's `\w` on the ASCII patterns used here. -/
def isWordChar (c : Char) : Bool := c.isAlphanum || c == '_'

/-- Tokenization of `re.sub(r"{(\w+)}", r"([^/]+)", path)`: scanning left
to right, each `\x7bword\x7d` becomes a capture token, every other
character stays a literal.  Fuel-indexed (the fuel dominates the length;
`tokenize` instantiates it). -/
def tokenizeFuel : Nat → S → List PatToken
  | 0, _ => []
  | fu+1, l =>
    match l with
    | [] => []
    | '{' :: rest =>
      match rest.takeWhile isWordChar, rest.drop (rest.takeWhile isWordChar).length with
      | _ :: _, '}' :: after => PatToken.param :: tokenizeFuel fu after
      | _, _ => PatToken.lit '{' :: tokenizeFuel fu rest
    | c :: rest => PatToken.lit c :: tokenizeFuel fu rest

def tokenize (l : S) : List PatToken := tokenizeFuel l.length l

/-- A compiled pattern: `^/$` for the root path (anchored at both ends,
where Python's `$` also matches before one trailing newline), otherwise
the token sequence of the substituted template, which `re.match` anchors
at the START only. -/
inductive Pattern where
  | root
  | template (toks : List PatToken)

/-- Fuel-indexed model of `re.match` for the pattern fragment generated
by `_build_pattern` (alternating literals and greedy `([^/]+)` groups):
match a PREFIX of the input, trying longer captures first and
backtracking, and return the captured groups.  The fuel dominates the
backtracking depth; `matchFuel` below is always enough. -/
def reMatchF : Nat → List PatToken → S → Option (List S)
  | 0, _, _ => none
  | _+1, [], _ => some []
  | _+1, PatToken.lit _ :: _, [] => none
  | fu+1, PatToken.lit c :: toks, x :: xs => if c = x then reMatchF fu toks xs else none
  | fu+1, PatToken.param :: toks, l =>
    List.findSome?
      (fun k => (reMatchF fu toks (l.drop k)).map (fun caps => l.take k :: caps))
      ((List.range (l.takeWhile (fun c => c != '/')).length).map
        (fun i => (l.takeWhile (fun c => c != '/')).length - i))

/-- Fuel sufficient for `reMatchF` (proved by `matchesPre_complete`). -/
def matchFuel (toks : List PatToken) (l : S) : Nat := (toks.length + 1) * (l.length + 2)

/-- `re.match(pattern, path)` together with `match.groups()`.  For the
root pattern `^/$`, Python's `$` matches at the end of the string or
before exactly one trailing newline, so the accepted paths are `/` and
the newline-terminated `/\n` (no capture groups in either case). -/
def Pattern.run : Pattern → S → Option (List S)
  | Pattern.root, p => if p = ['/'] ∨ p = ['/', '\n'] then some [] else none
  | Pattern.template toks, p => reMatchF (matchFuel toks p) toks p

/-- Pattern characters that the regex engine treats literally, with no
metacharacter meaning — the alphabet of every registered route path.
For templates built from such characters the char-for-char literal
matching of `reMatchF` is faithful to the compiled regex. -/
def PatToken.plain : PatToken → Bool
  | PatToken.lit c => c.isAlphanum || c == '/' || c == '-' || c == '_'
  | PatToken.param => true

/-- A handler: `(request, *args) -> ResponseContent`. -/
abbrev Handler := RequestContent → List S → ResponseContent

/-- The `Route` class: the raw path, the bound callback, the compiled
pattern, and the `args` slot that `match` mutates (initially `[]`). -/
structure Route where
  path : S
  callback : Handler
  pattern : Pattern
  args : List S

/-- `Route._build_pattern`: `^/$` for the root path, otherwise the
placeholder substitution (with no end anchor). -/
def Route.build_pattern (path : S) : Pattern :=
  if path = ['/'] then Pattern.root else Pattern.template (tokenize path)

/-- `Route.__init__`. -/
def Route.make (path : S) (callback : Handler) : Route :=
  { path := path, callback := callback, pattern := Route.build_pattern path, args := [] }

/-- `Route.match`: returns whether the path matched and the route with
its `args` slot overwritten by the captured groups on success (left
untouched on failure) — the mutation of `self.args` made explicit by
returning the updated `Route`. -/
def Route.matchPath (r : Route) (path : S) : Bool × Route :=
  match r.pattern.run path with
  | some caps => (true, { r with args := caps })
  | none => (false, r)

/-- Outcome of routing one request: the `request.method not in
self.router` check, the registration-order scan with its `for ... else`
fallback, or a match with the captured parameters. -/
inductive Resolution where
  | method_not_allowed
  | route_not_found
  | matched (r : Route) (args : List S)

/-- The path and captured parameters of a matched resolution (used to
state routing theorems without comparing callback functions). -/
def Resolution.found_info : Resolution → Option (S × List S)
  | Resolution.matched r args => some (r.path, args)
  | _ => none

/-- The body of the `for route in routes` loop: first route whose
compiled pattern accepts the path wins, the `else` clause yields 404. -/
def scanRoutes (path : S) : List Route → Resolution
  | [] => Resolution.route_not_found
  | r :: rest =>
    match r.pattern.run path with
    | some caps => Resolution.matched r caps
    | none => scanRoutes path rest

/-- Routing as done by `handle_connection`: methods that are not a KEY of
the router dict are rejected before any pattern is inspected; otherwise
the method's route list is scanned in registration order. -/
def resolve (router : List (S × List Route)) (meth path : S) : Resolution :=
  match dictGet meth router with
  | none => Resolution.method_not_allowed
  | some routes => scanRoutes path routes

/-- One request/response cycle of `ServerSocket.handle_connection`:
decode, route, invoke the handler (after threading the server directory
into the request), encode.  A parse failure propagates as an uncaught
exception — no bytes are sent — modelled by `none`. -/
def ServerSocket.handle_connection (router : List (S × List Route)) (directory : Option S)
    (data : S) : Option S :=
  match RequestParser.parse data with
  | none => none
  | some req =>
    match resolve router req.method req.path with
    | Resolution.method_not_allowed =>
      some ResponseContent.method_not_allowed.to_encoded_response
    | Resolution.route_not_found =>
      some ResponseContent.not_found.to_encoded_response
    | Resolution.matched r args =>
      some ((r.callback { req with server_directory := directory } args).to_encoded_response)

/-- `index_route`. -/
def index_route : Handler := fun _ _ => ResponseContent.new

/-- `echo_route` (`args[0]`; the route pattern guarantees one capture). -/
def echo_route : Handler := fun _ args => ResponseContent.new.set_body (args.headD [])

/-- `user_agent_route`. -/
def user_agent_route : Handler := fun req _ =>
  ResponseContent.new.set_body (req.header (st "UsEr-aGeNT"))

/-- `file_route`, with the filesystem modelled as an oracle `fs` mapping
a path to the file contents when `path.exists` holds (`f-string`
formatting of the `None` directory included). -/
def file_route (fs : S → Option S) : Handler := fun req args =>
  let dirS := match req.server_directory with
    | some d => d
    | none => st "None"
  let file_path := dirS ++ '/' :: args.headD []
  match fs file_path with
  | none => ResponseContent.not_found
  | some contents =>
    (ResponseContent.new.set_content_type (st "application/octet-stream")).set_body contents

/-- The router table built by `ServerSocket.__init__` and the `server.on`
calls of `main`: every method key is present from the start, only `GET`
has routes registered. -/
def defaultRouter (fs : S → Option S) : List (S × List Route) :=
  [(st "GET",
    [Route.make (st "/echo/{str}") echo_route,
     Route.make (st "/user-agent") user_agent_route,
     Route.make (st "/files/{filename}") (file_route fs),
     Route.make (st "/") index_route]),
   (st "POST", []),
   (st "PUT", []),
   (st "DELETE", [])]

/-- Declarative prefix-matching semantics of a compiled template: the
token list consumes some prefix of the input, a literal consumes its
character, a capture group consumes one-or-more non-`/` characters. -/
inductive MatchesPre : List PatToken → S → List S → Prop where
  | nil (l : S) : MatchesPre [] l []
  | lit (c : Char) (toks : List PatToken) (xs : S) (caps : List S) :
      MatchesPre toks xs caps → MatchesPre (PatToken.lit c :: toks) (c :: xs) caps
  | param (toks : List PatToken) (seg rest : S) (caps : List S) :
      seg ≠ [] → (∀ c ∈ seg, c ≠ '/') →
      MatchesPre toks rest caps → MatchesPre (PatToken.param :: toks) (seg ++ rest) (seg :: caps)

theorem findSome?_isSome_of_mem {α β : Type} (f : α → Option β) :
    ∀ (L : List α) (a : α), a ∈ L → (f a).isSome = true →
    (List.findSome? f L).isSome = true := by
  intro L
  induction L with
  | nil => intro a ha _; simp at ha
  | cons b bs ih =>
    intro a ha hf
    rw [List.findSome?_cons]
    rcases List.mem_cons.1 ha with h | h
    · subst h
      rcases hs : f a with _ | v
      · rw [hs] at hf; simp at hf
      · simp
    · rcases hs : f b with _ | v
      · exact ih a h hf
      · simp

/-- Soundness of the executable matcher: whatever `reMatchF` returns is a
real prefix match with those captures (at any fuel). -/
theorem reMatchF_sound :
    ∀ fu toks l caps, reMatchF fu toks l = some caps → MatchesPre toks l caps := by
  intro fu
  induction fu with
  | zero => intro toks l caps h; simp [reMatchF] at h
  | succ fu ih =>
    intro toks l caps h
    match toks with
    | [] =>
      simp [reMatchF] at h
      subst h
      exact MatchesPre.nil l
    | PatToken.lit c :: toks =>
      match l with
      | [] => simp [reMatchF] at h
      | x :: xs =>
        simp only [reMatchF] at h
        by_cases hc : c = x
        · rw [if_pos hc] at h
          subst hc
          exact MatchesPre.lit c toks xs caps (ih toks xs caps h)
        · rw [if_neg hc] at h
          exact absurd h (by simp)
    | PatToken.param :: toks =>
      simp only [reMatchF] at h
      rcases List.exists_of_findSome?_eq_some h with ⟨k, hk, hfk⟩
      rcases List.mem_map.1 hk with ⟨i, hi, hik⟩
      rw [List.mem_range] at hi
      have hk1 : 1 ≤ k := by omega
      have hkn : k ≤ (l.takeWhile (fun c => c != '/')).length := by omega
      have hkl : k ≤ l.length :=
        le_trans hkn (by simpa using (List.takeWhile_sublist _).length_le)
      rcases hrm : reMatchF fu toks (l.drop k) with _ | caps2
      · rw [hrm] at hfk; simp at hfk
      · rw [hrm] at hfk
        simp only [Option.map_some'] at hfk
        have hcaps : caps = l.take k :: caps2 := (Option.some_inj.1 hfk).symm
        have hrec := ih toks (l.drop k) caps2 hrm
        have hsplit : l = l.take k ++ l.drop k := (List.take_append_drop k l).symm
        have hne : l.take k ≠ [] := by
          have hlt : (l.take k).length = k := by
            rw [List.length_take]
            omega
          intro hnil
          rw [hnil] at hlt
          simp at hlt
          omega
        have hnosl : ∀ c ∈ l.take k, c ≠ '/' := by
          intro c hc
          have htw : l.take k = (l.takeWhile (fun c => c != '/')).take k := by
            conv_lhs => rw [← List.takeWhile_append_dropWhile (p := fun c => c != '/') (l := l)]
            rw [List.take_append_of_le_length hkn]
          rw [htw] at hc
          have hmem : c ∈ l.takeWhile (fun c => c != '/') := List.take_subset _ _ hc
          have := List.mem_takeWhile_imp hmem
          simpa using this
        have hm2 : MatchesPre (PatToken.param :: toks) (l.take k ++ l.drop k)
            (l.take k :: caps2) :=
          MatchesPre.param toks (l.take k) (l.drop k) caps2 hne hnosl hrec
        rw [List.take_append_drop] at hm2
        rw [hcaps]
        exact hm2

/-- A prefix match survives appending arbitrary extra input. -/
theorem matchesPre_append (ext : S) :
    ∀ toks l caps, MatchesPre toks l caps → MatchesPre toks (l ++ ext) caps := by
  intro toks l caps h
  induction h with
  | nil l => exact MatchesPre.nil (l ++ ext)
  | lit c toks xs caps _ ih => exact MatchesPre.lit c toks (xs ++ ext) caps ih
  | param toks seg rest caps hne hns _ ih =>
    rw [List.append_assoc]
    exact MatchesPre.param toks seg (rest ++ ext) caps hne hns ih

theorem matchFuel_lit (c : Char) (toks : List PatToken) (x : Char) (xs : S) :
    matchFuel toks xs + 1 ≤ matchFuel (PatToken.lit c :: toks) (x :: xs) := by
  simp only [matchFuel, List.length_cons]
  nlinarith [toks.length, xs.length]

theorem matchFuel_param (toks : List PatToken) (seg rest : S) (hseg : 1 ≤ seg.length) :
    matchFuel toks rest + 1 ≤ matchFuel (PatToken.param :: toks) (seg ++ rest) := by
  simp only [matchFuel, List.length_cons, List.length_append]
  nlinarith [toks.length, rest.length]

/-- If every character of `seg` satisfies `p`, the `takeWhile p` run of
`seg ++ rest` is at least as long as `seg`. -/
theorem length_takeWhile_append_ge (p : Char → Bool) :
    ∀ seg rest : S, (∀ c ∈ seg, p c = true) →
    seg.length ≤ ((seg ++ rest).takeWhile p).length := by
  intro seg rest
  induction seg with
  | nil => intro _; simp
  | cons a as ih =>
    intro h
    simp only [List.cons_append, List.takeWhile_cons, h a (by simp), if_true,
      List.length_cons]
    have := ih (fun c hc => h c (by simp [hc]))
    omega

theorem matchFuel_pos (toks : List PatToken) (l : S) : 0 < matchFuel toks l :=
  Nat.mul_pos (by omega) (by omega)

/-- Completeness of the executable matcher at the fuel `Pattern.run`
uses: every declarative prefix match is found. -/
theorem matchesPre_complete :
    ∀ toks l caps, MatchesPre toks l caps →
    ∀ fu, matchFuel toks l ≤ fu → (reMatchF fu toks l).isSome = true := by
  intro toks l caps h
  induction h with
  | nil l =>
    intro fu hfu
    have hpos := matchFuel_pos [] l
    cases fu with
    | zero => omega
    | succ fu => simp [reMatchF]
  | lit c toks xs caps hm ih =>
    intro fu hfu
    have hpos := matchFuel_pos (PatToken.lit c :: toks) (c :: xs)
    cases fu with
    | zero => omega
    | succ fu =>
      simp only [reMatchF, if_pos rfl]
      exact ih fu (by have := matchFuel_lit c toks c xs; omega)
  | param toks seg rest caps hne hns hm ih =>
    intro fu hfu
    have hpos := matchFuel_pos (PatToken.param :: toks) (seg ++ rest)
    cases fu with
    | zero => omega
    | succ fu =>
      have hseg1 : 1 ≤ seg.length := by
        cases seg with
        | nil => exact absurd rfl hne
        | cons a as => simp
      simp only [reMatchF]
      have hsegn : seg.length ≤ (((seg ++ rest)).takeWhile (fun c => c != '/')).length :=
        length_takeWhile_append_ge _ seg rest (fun c hc => by simpa using hns c hc)
      refine findSome?_isSome_of_mem _ _ seg.length ?_ ?_
      · refine List.mem_map.2 ⟨((seg ++ rest).takeWhile (fun c => c != '/')).length - seg.length,
          List.mem_range.2 (by omega), by omega⟩
      · rw [List.drop_left]
        have hrec := ih fu (by have := matchFuel_param toks seg rest hseg1; omega)
        rcases hx : reMatchF fu toks rest with _ | caps2
        · rw [hx] at hrec; simp at hrec
        · simp [hx]

theorem parseHeaders_isSome_iff :
    ∀ (lines : List S) (acc : List (S × List S)),
    (parseHeaders lines acc).isSome = true ↔
      ∀ h ∈ lines, (pySplitMax (st ": ") 2 h).length = 2 := by
  intro lines
  induction lines with
  | nil => intro acc; simp [parseHeaders]
  | cons line rest ih =>
    intro acc
    simp only [parseHeaders]
    rcases hs : pySplitMax (st ": ") 2 line with _ | ⟨a, tl⟩
    · exact ⟨fun hf => by simp at hf,
        fun hall => absurd (hall line (by simp)) (by rw [hs]; simp)⟩
    · rcases tl with _ | ⟨b, tl2⟩
      · exact ⟨fun hf => by simp at hf,
          fun hall => absurd (hall line (by simp)) (by rw [hs]; simp)⟩
      · rcases tl2 with _ | ⟨c, tl3⟩
        · rw [ih]
          constructor
          · intro hall h hm
            rcases List.mem_cons.1 hm with h2 | h2
            · subst h2
              simp [hs]
            · exact hall h h2
          · intro hall h hm
            exact hall h (List.mem_cons_of_mem _ hm)
        · exact ⟨fun hf => by simp at hf,
            fun hall => absurd (hall line (by simp)) (by rw [hs]; simp)⟩

/-- Keys built by the header loop stay unique and lower-cased. -/
theorem parseHeaders_inv :
    ∀ (lines : List S) (acc res : List (S × List S)),
    parseHeaders lines acc = some res →
    ((acc.map Prod.fst).Nodup ∧ ∀ kv ∈ acc, kv.1 = lowerS kv.1) →
    ((res.map Prod.fst).Nodup ∧ ∀ kv ∈ res, kv.1 = lowerS kv.1) := by
  intro lines
  induction lines with
  | nil =>
    intro acc res h hinv
    simp only [parseHeaders, Option.some_inj] at h
    subst h
    exact hinv
  | cons line rest ih =>
    intro acc res h hinv
    simp only [parseHeaders] at h
    rcases hs : pySplitMax (st ": ") 2 line with _ | ⟨a, tl⟩ <;> rw [hs] at h
    · simp at h
    · rcases tl with _ | ⟨b, tl2⟩
      · simp at h
      · rcases tl2 with _ | ⟨c, tl3⟩
        · refine ih _ res h ⟨keys_nodup_dictInsert _ _ _ hinv.1, ?_⟩
          intro kv hkv
          rcases mem_dictInsert _ _ _ kv hkv with h2 | h2
          · rw [h2]
            exact (lowerS_idem a).symm
          · exact hinv.2 kv h2
        · simp at h

/-- The part of the input before the first double CRLF (meaningful when
the split has exactly two pieces). -/
def headerBlockOf (s2 : S) : S := (pySplit CRLF2 s2).headD []

/-- The first CRLF-separated line of the header block: the request line. -/
def requestLineOf (s2 : S) : S := (pySplit CRLF (headerBlockOf s2)).headD []

/-- The remaining CRLF-separated lines of the header block. -/
def headerLinesOf (s2 : S) : List S := (pySplit CRLF (headerBlockOf s2)).tail

theorem headerLine_ok_iff (h : S) :
    (pySplitMax (st ": ") 2 h).length = 2 ↔ countOcc (st ": ") h = 1 := by
  rw [length_pySplitMax (st ": ") (by decide) 2 h]
  omega

/-- Success characterization of the decoder in terms of separator
occurrence counts. -/
theorem parse_isSome_iff (s2 : S) :
    (RequestParser.parse s2).isSome = true ↔
    (countOcc CRLF2 s2 = 1 ∧ countOcc [' '] (requestLineOf s2) = 2 ∧
      ∀ h ∈ headerLinesOf s2, countOcc (st ": ") h = 1) := by
  have hlen2 := length_pySplit CRLF2 s2 (by decide)
  by_cases h1 : countOcc CRLF2 s2 = 1
  · rcases hparts : pySplit CRLF2 s2 with _ | ⟨hb, tl⟩
    · exact absurd hparts (pySplit_ne_nil _ _)
    rcases tl with _ | ⟨bd, tl2⟩
    · rw [hparts, h1] at hlen2
      simp at hlen2
    rcases tl2 with _ | ⟨x, tl3⟩
    · rcases hlines : pySplit CRLF hb with _ | ⟨rl, hls⟩
      · exact absurd hlines (pySplit_ne_nil _ _)
      have hrlof : requestLineOf s2 = rl := by
        simp [requestLineOf, headerBlockOf, hparts, hlines]
      have hhlof : headerLinesOf s2 = hls := by
        simp [headerLinesOf, headerBlockOf, hparts, hlines]
      have hlen3 := length_pySplit [' '] rl (by decide)
      simp only [RequestParser.parse, hparts, hlines, hrlof, hhlof, h1, true_and]
      by_cases h2 : countOcc [' '] rl = 2
      · rcases hsp : pySplit [' '] rl with _ | ⟨m, tl⟩
        · exact absurd hsp (pySplit_ne_nil _ _)
        rcases tl with _ | ⟨u, tl2⟩
        · rw [hsp, h2] at hlen3
          simp at hlen3
        rcases tl2 with _ | ⟨v, tl3⟩
        · rw [hsp, h2] at hlen3
          simp at hlen3
        rcases tl3 with _ | ⟨w, tl4⟩
        · rcases hh : parseHeaders hls [] with _ | hd
          · constructor
            · intro hf
              simp at hf
            · intro hall
              have hps := (parseHeaders_isSome_iff hls []).2
                (fun h hm => (headerLine_ok_iff h).2 (hall.2 h hm))
              rw [hh] at hps
              simp at hps
          · constructor
            · intro _
              exact ⟨h2, fun h hm => (headerLine_ok_iff h).1
                ((parseHeaders_isSome_iff hls []).1 (by simp [hh]) h hm)⟩
            · intro _
              simp
        · rw [hsp, h2] at hlen3
          simp at hlen3
      · have hne3 : (pySplit [' '] rl).length ≠ 3 := by omega
        rcases hsp : pySplit [' '] rl with _ | ⟨m, tl⟩
        · exact absurd hsp (pySplit_ne_nil _ _)
        rcases tl with _ | ⟨u, tl2⟩
        · simp [h2]
        rcases tl2 with _ | ⟨v, tl3⟩
        · simp [h2]
        rcases tl3 with _ | ⟨w, tl4⟩
        · rw [hsp] at hne3
          simp at hne3
        · simp [h2]
    · rw [hparts, h1] at hlen2
      simp at hlen2
  · have hne2 : (pySplit CRLF2 s2).length ≠ 2 := by omega
    have hnone : RequestParser.parse s2 = none := by
      rcases hparts : pySplit CRLF2 s2 with _ | ⟨hb, tl⟩
      · exact absurd hparts (pySplit_ne_nil _ _)
      rcases tl with _ | ⟨bd, tl2⟩
      · simp [RequestParser.parse, hparts]
      rcases tl2 with _ | ⟨x, tl3⟩
      · rw [hparts] at hne2
        simp at hne2
      · simp [RequestParser.parse, hparts]
    rw [hnone]
    simp [h1]

/-- Claim C4 (amended): decode fails exactly when the input does not
contain exactly one double-CRLF occurrence (Python splits on every
occurrence and the two-way unpacking then fails — so a body containing a
double CRLF does NOT decode), or the request line does not split into
exactly three space-separated tokens, or some header line does not
contain exactly one occurrence of `": "` (a value containing `": "` hits
the `maxsplit=2` third piece and fails the two-way unpacking). -/
theorem c4_decode_failure_iff (s2 : S) :
    RequestParser.parse s2 = none ↔
    ¬(countOcc CRLF2 s2 = 1 ∧ countOcc [' '] (requestLineOf s2) = 2 ∧
      ∀ h ∈ headerLinesOf s2, countOcc (st ": ") h = 1) := by
  rw [← parse_isSome_iff]
  rcases h : RequestParser.parse s2 with _ | r <;> simp

/-- Claim C4 (counterexample): on `"GET / HTTP/1.1\r\n\r\nAB\r\n\r\nCD"`
— a well-formed request line, no header lines, and a body containing a
double CRLF — the claim promises a successful decode (split once on the
FIRST double CRLF), but the decoder fails. -/
theorem c4_counterexample :
    RequestParser.parse (st "GET / HTTP/1.1\r\n\r\nAB\r\n\r\nCD") = none := by decide

/-- Claim C3 (counterexample): a request with one header (`host: x`) and
empty body.  `to_encoded_request` puts only a SINGLE CRLF between the
header lines and the body, so the encoded bytes contain no double CRLF
and the decoder fails outright — the round-trip
`decode (encode r) = r` is false for this valid request. -/
theorem c3_counterexample :
    RequestParser.parse (RequestContent.to_encoded_request
      ⟨st "GET", st "/", st "HTTP/1.1", [(st "host", [st "x"])], st "", none⟩) = none := by
  decide

/-- Claim C3 (amended): the encode/decode round-trip holds only for
requests with an EMPTY header mapping (whose encoding degenerates to
request line, double CRLF, body); any request-line tokens free of spaces
and CRLF and any body free of double CRLF round-trip in that case.  With
at least one header the single CRLF before the body breaks decoding (see
the counterexample). -/
theorem c3_roundtrip_no_headers (m p v b : S)
    (hm : containsSub [' '] m = false) (hp : containsSub [' '] p = false)
    (hv : containsSub [' '] v = false)
    (hline : containsSub CRLF (m ++ ' ' :: (p ++ ' ' :: v)) = false)
    (hb : containsSub CRLF2 b = false) :
    RequestParser.parse (RequestContent.to_encoded_request ⟨m, p, v, [], b, none⟩) =
      some ⟨m, p, v, [], b, none⟩ := by
  have henc : RequestContent.to_encoded_request ⟨m, p, v, [], b, none⟩ =
      (m ++ ' ' :: (p ++ ' ' :: v)) ++ CRLF2 ++ b := by
    simp [RequestContent.to_encoded_request, joinSep, CRLF, CRLF2, List.intercalate]
  have hsp : pySplit [' '] (m ++ ' ' :: (p ++ ' ' :: v)) = [m, p, v] := by
    rw [pySplit_single_sep ' ' m _ hm, pySplit_single_sep ' ' p _ hp,
      pySplit_of_not_contains [' '] v hv]
  rw [henc]
  simp only [RequestParser.parse, pySplit_crlf2_boundary _ _ hline hb,
    pySplit_of_not_contains CRLF _ hline, hsp, parseHeaders]

/-- Claim C3 (witness): a concrete headerless request round-trips. -/
theorem c3_roundtrip_no_headers_witness :
    RequestParser.parse (RequestContent.to_encoded_request
      ⟨st "GET", st "/", st "HTTP/1.1", [], st "hello", none⟩) =
      some ⟨st "GET", st "/", st "HTTP/1.1", [], st "hello", none⟩ :=
  c3_roundtrip_no_headers (st "GET") (st "/") (st "HTTP/1.1") (st "hello")
    (by decide) (by decide) (by decide) (by decide) (by decide)

theorem finalized_content_length (r : ResponseContent) :
    dictGet (st "Content-Length") r.finalized.headers = some [natToStr r.body.length] := by
  simp only [ResponseContent.finalized]
  split
  · simp [ResponseContent.set_header, ResponseContent.set_header_pair,
      ResponseContent.set_content_type, ResponseContent.set_body, dictGet_insert_self]
  · simp [ResponseContent.set_header, ResponseContent.set_header_pair, dictGet_insert_self]

/-- Claim C5 (confirmed): at encode time, a missing `Content-Type`
(exact-case lookup, as in the source) is defaulted to `text/plain`, and
`Content-Length` is always recomputed from the final body length,
overwriting whatever value the caller may have set. -/
theorem c5_encode_header_defaults (r : ResponseContent) :
    (dictGet (st "Content-Type") r.headers = none →
      dictGet (st "Content-Type") r.finalized.headers = some [st "text/plain"]) ∧
    dictGet (st "Content-Length") r.finalized.headers = some [natToStr r.body.length] := by
  refine ⟨?_, finalized_content_length r⟩
  intro h
  simp only [ResponseContent.finalized]
  rw [if_pos h]
  show dictGet (st "Content-Type")
    (dictInsert (st "Content-Length") _ (dictInsert (st "Content-Type") _ r.headers)) = _
  rw [dictGet_insert_ne _ _ _ (by decide), dictGet_insert_self]

/-- Claim C5 (witness): a response built with a stale `Content-Length`
of `999` and body `"abcd"` encodes with the defaulted `Content-Type` and
the recomputed `Content-Length` `"4"`. -/
theorem c5_encode_header_defaults_witness :
    (dictGet (st "Content-Type")
      ((ResponseContent.new.set_header (st "Content-Length") (st "999")).set_body
        (st "abcd")).finalized.headers = some [st "text/plain"]) ∧
    (dictGet (st "Content-Length")
      ((ResponseContent.new.set_header (st "Content-Length") (st "999")).set_body
        (st "abcd")).finalized.headers = some [st "4"]) := by
  refine ⟨(c5_encode_header_defaults _).1 (by decide), ?_⟩
  have h2 := (c5_encode_header_defaults
    ((ResponseContent.new.set_header (st "Content-Length") (st "999")).set_body
      (st "abcd"))).2
  rw [h2]
  decide

/-- Number of bytes of the UTF-8 encoding of a string — the length of
the `str.encode()` result that `__bytes__` actually sends. -/
def utf8Len (l : S) : Nat := (l.map Char.utf8Size).sum

theorem utf8Size_ascii (c : Char) (h : c.toNat ≤ 127) : Char.utf8Size c = 1 := by
  simp only [Char.utf8Size]
  rw [if_pos]
  rw [UInt32.le_def]
  exact h

/-- Claim C10 (confirmed): the `Content-Length` written at encode time is
`str(len(self.body))` — the number of CHARACTERS of the body — while the
socket sends the UTF-8 encoding of the response text.  The two agree for
all-ASCII bodies, but for the one-character body `"é"` the declared
length 1 is strictly below the 2 encoded bytes. -/
theorem c10_content_length_in_chars :
    (∀ r : ResponseContent,
      dictGet (st "Content-Length") r.finalized.headers = some [natToStr r.body.length]) ∧
    (∀ b : S, (∀ c ∈ b, c.toNat ≤ 127) → utf8Len b = b.length) ∧
    (natToStr (st "é").length = st "1" ∧ utf8Len (st "é") = 2 ∧ (st "é").length = 1) := by
  refine ⟨finalized_content_length, ?_, by decide, by decide, by decide⟩
  intro b hascii
  induction b with
  | nil => rfl
  | cons c cs ih =>
    have h1 := utf8Size_ascii c (hascii c (by simp))
    have h2 := ih (fun c2 hc2 => hascii c2 (by simp [hc2]))
    simp [utf8Len] at h2 ⊢
    omega

/-- Claim C10 (witness): instantiating the ASCII clause at `"abc"`. -/
theorem c10_content_length_in_chars_witness :
    utf8Len (st "abc") = (st "abc").length :=
  c10_content_length_in_chars.2.1 (st "abc") (by decide)

/-- Claim C7 (confirmed): headers of every successfully decoded request
have unique, lower-cased keys; lookups go through `key.lower()`, so any
capitalization of a name retrieves the same comma-joined value; an
absent header yields the empty value, never an error. -/
theorem c7_decoded_header_invariants (s2 : S) (r : RequestContent)
    (hparse : RequestParser.parse s2 = some r) :
    ((r.headers.map Prod.fst).Nodup ∧ (∀ kv ∈ r.headers, kv.1 = lowerS kv.1)) ∧
    (∀ k, r.header k = r.header (lowerS k)) ∧
    (∀ k, dictGet (lowerS k) r.headers = none → r.header k = []) := by
  refine ⟨?_, ?_, ?_⟩
  · rcases h1 : pySplit CRLF2 s2 with _ | ⟨hb, tl⟩
    · exact absurd h1 (pySplit_ne_nil _ _)
    rcases tl with _ | ⟨bd, tl2⟩
    · simp [RequestParser.parse, h1] at hparse
    rcases tl2 with _ | ⟨x, tl3⟩
    swap
    · simp [RequestParser.parse, h1] at hparse
    rcases h2 : pySplit CRLF hb with _ | ⟨rl, hls⟩
    · exact absurd h2 (pySplit_ne_nil _ _)
    rcases h3 : pySplit [' '] rl with _ | ⟨m, t1⟩
    · exact absurd h3 (pySplit_ne_nil _ _)
    rcases t1 with _ | ⟨u, t2⟩
    · simp [RequestParser.parse, h1, h2, h3] at hparse
    rcases t2 with _ | ⟨v, t3⟩
    · simp [RequestParser.parse, h1, h2, h3] at hparse
    rcases t3 with _ | ⟨w, t4⟩
    swap
    · simp [RequestParser.parse, h1, h2, h3] at hparse
    rcases h4 : parseHeaders hls [] with _ | hd
    · simp [RequestParser.parse, h1, h2, h3, h4] at hparse
    · simp only [RequestParser.parse, h1, h2, h3, h4, Option.some_inj] at hparse
      have hinv := parseHeaders_inv hls [] hd h4 (by simp)
      rw [← hparse]
      exact hinv
  · intro k
    simp [RequestContent.header, RequestContent.headers_pair, lowerS_idem]
  · intro k h
    simp [RequestContent.header, RequestContent.headers_pair, h, joinSep, List.intercalate]

/-- Claim C7 (witness): a request carrying `User-Agent: foo/1.0` decodes
to a lower-cased unique key set; looked up via the differently-cased key
`"UsEr-AgEnT"` it yields `"foo/1.0"`, and an absent header yields the
empty string. -/
theorem c7_decoded_header_invariants_witness :
    ((∀ r : RequestContent,
        RequestParser.parse (st "GET / HTTP/1.1\r\nUser-Agent: foo/1.0\r\n\r\n") = some r →
        (r.headers.map Prod.fst).Nodup ∧ ∀ kv ∈ r.headers, kv.1 = lowerS kv.1) ∧
      (∀ r : RequestContent,
        RequestParser.parse (st "GET / HTTP/1.1\r\nUser-Agent: foo/1.0\r\n\r\n") = some r →
        r.header (st "UsEr-AgEnT") = st "foo/1.0" ∧ r.header (st "x-missing") = [])) := by
  constructor
  · intro r hr
    exact (c7_decoded_header_invariants _ r hr).1
  · intro r hr
    have := (c7_decoded_header_invariants _ r hr).1
    have hr2 : r = ⟨st "GET", st "/", st "HTTP/1.1",
        [(st "user-agent", [st "foo/1.0"])], [], none⟩ := by
      have : RequestParser.parse (st "GET / HTTP/1.1\r\nUser-Agent: foo/1.0\r\n\r\n") =
          some ⟨st "GET", st "/", st "HTTP/1.1",
            [(st "user-agent", [st "foo/1.0"])], [], none⟩ := by decide
      rw [this] at hr
      exact (Option.some_inj.1 hr).symm
    rw [hr2]
    exact ⟨by decide, by decide⟩

/-- Claim C2 (counterexample): the compiled pattern of `/echo/\x7bstr\x7d`
ACCEPTS the extended path `/echo/abc/extra` (capturing `abc`), because
`_build_pattern` adds no `$` anchor to non-root patterns and `re.match`
only anchors at the start — the claim promised no match. -/
theorem c2_counterexample :
    (Route.make (st "/echo/{str}") echo_route).pattern.run (st "/echo/abc/extra") =
      some [st "abc"] := by
  decide

/-- Claim C2 (amended): only the root pattern `^/$` is anchored on both
ends, and there by the regex meaning of `$`: it accepts exactly `/` and
the newline-terminated `/\n`.  Every non-root compiled pattern — for
route paths over the regex-plain alphabet all registered routes use —
is anchored at the START only, so whenever it accepts a path it also
accepts that path extended by ANY suffix (extra characters or extra
segments). -/
theorem c2_start_anchored_only :
    (∀ p : S, Pattern.root.run p = some [] ↔ (p = ['/'] ∨ p = ['/', '\n'])) ∧
    (∀ toks : List PatToken, (∀ t ∈ toks, t.plain = true) →
      ∀ (p ext : S) (caps : List S),
      (Pattern.template toks).run p = some caps →
      ((Pattern.template toks).run (p ++ ext)).isSome = true) := by
  constructor
  · intro p
    by_cases h : p = ['/'] ∨ p = ['/', '\n'] <;> simp [Pattern.run, h]
  · intro toks _ p ext caps h
    have hm : MatchesPre toks p caps := reMatchF_sound _ _ _ _ h
    have hm2 := matchesPre_append ext _ _ _ hm
    show (reMatchF (matchFuel toks (p ++ ext)) toks (p ++ ext)).isSome = true
    exact matchesPre_complete _ _ _ hm2 _ le_rfl

/-- Claim C2 (witness): the extension clause at the concrete pattern
`/echo/\x7bstr\x7d` (whose tokens are all regex-plain), matched path
`/echo/abc` and suffix `/extra`. -/
theorem c2_start_anchored_only_witness :
    ((Pattern.template (tokenize (st "/echo/{str}"))).run
      (st "/echo/abc" ++ st "/extra")).isSome = true :=
  c2_start_anchored_only.2 (tokenize (st "/echo/{str}")) (by decide) (st "/echo/abc")
    (st "/extra") [st "abc"] (by decide)

/-- Claim C6 (confirmed): the full pipeline — decode the request bytes,
route against `GET /echo/\x7bstr\x7d` bound to the echo handler, encode —
produces exactly the expected response bytes, with `Content-Type` before
`Content-Length` in insertion order. -/
theorem c6_echo_scenario :
    ServerSocket.handle_connection [(st "GET", [Route.make (st "/echo/{str}") echo_route])]
      none (st "GET /echo/abc HTTP/1.1\r\nHost: x\r\n\r\n") =
    some (st "HTTP/1.1 200 OK\r\nContent-Type: text/plain\r\nContent-Length: 3\r\n\r\nabc") := by
  decide

/-- Claim C8 (confirmed): with `GET /echo/\x7bx\x7d` and `GET /` registered in
that order, `/` resolves to the root route with no captures (the echo
pattern rejects it), and `/echo/hi` resolves to the echo route capturing
exactly `["hi"]`. -/
theorem c8_routing_precedence :
    ((resolve [(st "GET",
        [Route.make (st "/echo/{x}") echo_route, Route.make (st "/") index_route])]
      (st "GET") (st "/")).found_info = some (st "/", [])) ∧
    ((resolve [(st "GET",
        [Route.make (st "/echo/{x}") echo_route, Route.make (st "/") index_route])]
      (st "GET") (st "/echo/hi")).found_info = some (st "/echo/{x}", [st "hi"])) := by
  decide

/-- Claim C1 (counterexample): the dispatcher checks `request.method not
in self.router`, and `DELETE` IS a key of the router built by
`ServerSocket.__init__` (with an empty route list), so
`"DELETE / HTTP/1.1\r\n\r\n"` falls through to the route scan and gets
the canned 404 — not the 405 the claim promises, and exactly the 404 it
rules out. -/
theorem c1_counterexample :
    (ServerSocket.handle_connection (defaultRouter (fun _ => none)) none
        (st "DELETE / HTTP/1.1\r\n\r\n") =
      some (st "HTTP/1.1 404 Not Found\r\nContent-Type: text/plain\r\nContent-Length: 9\r\n\r\nNot Found")) ∧
    (ServerSocket.handle_connection (defaultRouter (fun _ => none)) none
        (st "DELETE / HTTP/1.1\r\n\r\n") ≠
      some ResponseContent.method_not_allowed.to_encoded_response) := by
  decide

/-- Claim C1 (amended): the method-not-allowed gate triggers exactly for
methods that are not a KEY of the router dict (e.g. `PATCH`), before any
pattern is scanned; a method that is a key but has an empty route list
(e.g. `DELETE` in the default table) instead yields the canned 404. -/
theorem c1_method_key_gate (router : List (S × List Route)) (dir : Option S) (data : S)
    (req : RequestContent) (hparse : RequestParser.parse data = some req) :
    (dictGet req.method router = none →
      ServerSocket.handle_connection router dir data =
        some ResponseContent.method_not_allowed.to_encoded_response) ∧
    (dictGet req.method router = some [] →
      ServerSocket.handle_connection router dir data =
        some ResponseContent.not_found.to_encoded_response) := by
  constructor
  · intro h
    simp [ServerSocket.handle_connection, hparse, resolve, h]
  · intro h
    simp [ServerSocket.handle_connection, hparse, resolve, h, scanRoutes]

/-- Claim C1 (witness): `PATCH` is not a key of the default router, so a
`PATCH` request is answered with the canned 405. -/
theorem c1_method_key_gate_witness :
    ServerSocket.handle_connection (defaultRouter (fun _ => none)) none
      (st "PATCH / HTTP/1.1\r\n\r\n") =
    some ResponseContent.method_not_allowed.to_encoded_response :=
  (c1_method_key_gate (defaultRouter (fun _ => none)) none
    (st "PATCH / HTTP/1.1\r\n\r\n")
    ⟨st "PATCH", st "/", st "HTTP/1.1", [], [], none⟩ (by decide)).1 (by rfl)

/-- Claim C9 (counterexample): `Route.match` delivers captures only by
overwriting the route's own `args` slot (returning a bare boolean), and
a second match on the SAME route replaces the slot: after matching
`/echo/first` and then `/echo/second`, the stored captures are
`["second"]` — the first match's captures are gone, so the capture is a
shared mutable slot, not an independent per-match value. -/
theorem c9_counterexample :
    (((Route.make (st "/echo/{str}") echo_route).matchPath (st "/echo/first")).2.args =
        [st "first"]) ∧
    ((((Route.make (st "/echo/{str}") echo_route).matchPath
        (st "/echo/first")).2.matchPath (st "/echo/second")).2.args = [st "second"]) ∧
    [st "second"] ≠ ([st "first"] : List S) := by
  decide

/-- Claim C9 (amended): each successful match stores its captures in the
Route instance's mutable `args` field; a later successful match on the
same Route overwrites that field with its own captures, so captures are
not independent per-match values.  (In the source the dispatcher happens
to run handlers synchronously — `Thread.run`, not `Thread.start` — which
is why the overwrite is not observed concurrently in practice.) -/
theorem c9_shared_args_slot (r : Route) (p1 p2 : S) (c1 c2 : List S)
    (h1 : r.pattern.run p1 = some c1) (h2 : r.pattern.run p2 = some c2) :
    ((r.matchPath p1).2.args = c1) ∧
    (((r.matchPath p1).2.matchPath p2).2.args = c2) := by
  constructor
  · simp [Route.matchPath, h1]
  · simp [Route.matchPath, h1, h2]

/-- Claim C9 (witness): the overwrite at the concrete echo route. -/
theorem c9_shared_args_slot_witness :
    (((Route.make (st "/echo/{str}") echo_route).matchPath (st "/echo/first")).2.args =
      [st "first"]) ∧
    ((((Route.make (st "/echo/{str}") echo_route).matchPath
      (st "/echo/first")).2.matchPath (st "/echo/second")).2.args = [st "second"]) :=
  c9_shared_args_slot (Route.make (st "/echo/{str}") echo_route)
    (st "/echo/first") (st "/echo/second") [st "first"] [st "second"]
    (by decide) (by decide)

end HttpSrv
